import Mathlib

/-!
Verification of the audio-output pipeline of a React voice-chat SDK.

The definitions below are a shallow embedding of the TypeScript sources:

* `ChunkReorder` embeds the chunk-reordering logic of
  `useSoundPlayer.ts` (`getNextAudioBuffers`, the `chunkBufferQueues` /
  `lastQueuedChunk` refs, and the parts of `stopAll` that reset them).
  JavaScript arrays with holes are embedded as `List (Option Nat)`
  (an `AudioBuffer` payload is represented by a `Nat` code); the
  `chunkBufferQueues` record is an association list keyed by the
  utterance id.
* `Bark` embeds `convertFrequencyScale.ts`, with JavaScript numbers
  modelled as rationals and `Math.round` as `round`.
* `Fft` embeds `fftStore.ts` as an explicit state machine whose events
  are `write`, animation-frame callbacks, and `clear`.
* `Coord` embeds the connect/disconnect status logic of
  `VoiceProvider.tsx`, with the outcome of each awaited step supplied
  by an oracle.
* `Player` embeds the player-level state of `useSoundPlayer.ts`
  (`stopAll`, `stopAllWithRetries`, `setVolume`, `muteAudio`,
  `unmuteAudio`).
-/

namespace ChunkReorder

/-- Reading `arr[i]` from a JavaScript array with holes: `undefined`
(= `none`) outside the populated range. -/
def slotGet (a : List (Option Nat)) (i : Nat) : Option Nat :=
  a.getD i none

/-- Writing `arr[i] = v` to a JavaScript array: in-range writes update the
cell, out-of-range writes extend the array with holes. -/
def slotSet (a : List (Option Nat)) (i : Nat) (v : Option Nat) : List (Option Nat) :=
  if i < a.length then a.set i v
  else a ++ List.replicate (i - a.length) none ++ [v]

/-- Fueled form of the drain loop: the fuel only bounds the iteration
count (a populated slot always lies within the array, so a fuel of
`a.length + 1 - i` is never exhausted). -/
def drainAux : Nat → List (Option Nat) → Nat → List (Option Nat) × List (Nat × Nat)
  | 0, a, _ => (a, [])
  | fuel + 1, a, i =>
    match slotGet a i with
    | none => (a, [])
    | some b =>
      let r := drainAux fuel (slotSet a i none) (i + 1)
      (r.1, (i, b) :: r.2)

/-- The drain loop of `getNextAudioBuffers` (`useSoundPlayer.ts`):
starting at index `i`, repeatedly release and clear the slot while it is
populated.  Returns the remaining slot array together with the released
`(index, buffer)` pairs, in ascending-index order. -/
def drainFrom (a : List (Option Nat)) (i : Nat) :
    List (Option Nat) × List (Nat × Nat) :=
  drainAux (a.length + 1 - i) a i

/-- State of the reordering logic: the `chunkBufferQueues` ref (an
association list keyed by utterance id) and the `lastQueuedChunk` ref. -/
structure RState where
  queues : List (String × List (Option Nat))
  last : Option (String × Nat)
  deriving DecidableEq, Repr

/-- Fresh state of the reordering refs (`chunkBufferQueues = {}`,
`lastQueuedChunk = null`). -/
def initRState : RState := ⟨[], none⟩

/-- `chunkBufferQueues.current[id]`, defaulting to an empty array as the
source does when the key is missing. -/
def qLookup : List (String × List (Option Nat)) → String → List (Option Nat)
  | [], _ => []
  | e :: rest, id => if e.1 = id then e.2 else qLookup rest id

/-- Store a (possibly new) slot array under `id`. -/
def qUpdate (qs : List (String × List (Option Nat))) (id : String)
    (arr : List (Option Nat)) : List (String × List (Option Nat)) :=
  match qs with
  | [] => [(id, arr)]
  | e :: rest => if e.1 = id then (id, arr) :: rest else e :: qUpdate rest id arr

/-- One released fragment `{id, index, buffer}` as pushed into the
`buffers` array of `getNextAudioBuffers`. -/
abbrev Rel := String × Nat × Nat

/-- The `message.id !== lastId` branch of `getNextAudioBuffers`: a new
utterance may only start at slot 0; otherwise nothing is released (the
stored fragment is kept). -/
def startNew (s : RState) (id : String) (arr : List (Option Nat)) :
    RState × List Rel :=
  match slotGet arr 0 with
  | none => (⟨qUpdate s.queues id arr, s.last⟩, [])
  | some b0 =>
    let arr1 := slotSet arr 0 none
    let d := drainFrom arr1 1
    (⟨qUpdate s.queues id d.1, some (id, d.2.length)⟩,
      (id, 0, b0) :: d.2.map (fun p => (id, p.1, p.2)))

/-- `getNextAudioBuffers` from `useSoundPlayer.ts`: store the fragment at
`slots[index]`; if the utterance id differs from `lastQueuedChunk`'s,
start the new utterance only if its slot 0 is populated (else release
nothing); then drain consecutive populated slots after the last queued
index.  Returns the updated refs and the released fragments. -/
def register (s : RState) (id : String) (idx : Nat) (buf : Nat) :
    RState × List Rel :=
  let arr := slotSet (qLookup s.queues id) idx (some buf)
  match s.last with
  | some (lid, lidx) =>
    if lid = id then
      -- same utterance as `lastQueuedChunk`: drain from last index + 1
      let d := drainFrom arr (lidx + 1)
      (⟨qUpdate s.queues id d.1, some (id, lidx + d.2.length)⟩,
        d.2.map (fun p => (id, p.1, p.2)))
    else startNew s id arr
  | none => startNew s id arr

/-- Run a sequence of `(id, index, buffer)` registrations, concatenating
the released fragments. -/
def runRegs (s : RState) : List (String × Nat × Nat) → RState × List Rel
  | [] => (s, [])
  | (id, idx, buf) :: rest =>
    let r := register s id idx buf
    let r' := runRegs r.1 rest
    (r'.1, r.2 ++ r'.2)

/-- Projection of a released fragment to its `(utteranceId, index)` pair. -/
def relKey (r : Rel) : String × Nat := (r.1, r.2.1)

/-- Invariant characterizing the reordering state after a sequence of
single-utterance registrations.  `P` holds on the indices registered so
far, `rel` is the cumulative released list, and `k` is the length of the
contiguous released prefix. -/
def Inv (u : String) (P : Nat → Prop) (s : RState) (rel : List Rel) : Prop :=
  ∃ k B,
    (∀ j, j < k → P j) ∧ ¬ P k ∧ (∀ j, B ≤ j → ¬ P j) ∧
    rel.map relKey = (List.range k).map (fun j => (u, j)) ∧
    s.last = (if k = 0 then none else some (u, k - 1)) ∧
    ∀ j, k ≤ j → ((slotGet (qLookup s.queues u) j).isSome ↔ P j)

end ChunkReorder

namespace Fft

/-- Number of Bark bands (`BARK_BAND_COUNT` in the source). -/
def BARK_BAND_COUNT : Nat := 24

/-- State of an `FftStore` (`fftStore.ts`): the mutable scratch buffer,
the published immutable snapshot, the `_dirty` flag and whether a
`requestAnimationFrame` callback is pending (`_rafId !== null`). -/
structure FftState where
  buffer : List ℚ
  snapshot : List ℚ
  dirty : Bool
  rafPending : Bool
  deriving DecidableEq, Repr

def emptyFft : List ℚ := List.replicate BARK_BAND_COUNT 0

/-- A freshly constructed `FftStore`. -/
def initFftState : FftState := ⟨emptyFft, emptyFft, false, false⟩

/-- The copy loop of `write`: `buffer[i] = data[i] ?? 0` for the 24 bands. -/
def fftCopy (data : List ℚ) : List ℚ :=
  (List.range BARK_BAND_COUNT).map (fun i => data.getD i 0)

/-- `_scheduleFlush`: a no-op when an animation frame is already pending. -/
def fftScheduleFlush (s : FftState) : FftState :=
  if s.rafPending then s else { s with rafPending := true }

/-- `_flush`: only notifies when dirty; freezes the buffer into a new
snapshot.  The second component counts listener broadcasts. -/
def fftFlush (s : FftState) : FftState × Nat :=
  if s.dirty then ({ s with dirty := false, snapshot := s.buffer }, 1)
  else (s, 0)

/-- `write(data)`: copy into the scratch buffer; if not already dirty,
mark dirty and schedule one flush.  Never notifies directly. -/
def fftWrite (s : FftState) (data : List ℚ) : FftState × Nat :=
  let s1 := { s with buffer := fftCopy data }
  if s1.dirty then (s1, 0) else (fftScheduleFlush { s1 with dirty := true }, 0)

/-- `clear()`: zero the buffer, mark dirty, and flush synchronously. -/
def fftClear (s : FftState) : FftState × Nat :=
  fftFlush { s with buffer := List.replicate BARK_BAND_COUNT 0, dirty := true }

/-- The `requestAnimationFrame` callback boundary: when a frame callback
is pending, it resets `_rafId` and runs `_flush`; otherwise nothing runs
on this display frame. -/
def fftFrame (s : FftState) : FftState × Nat :=
  if s.rafPending then fftFlush { s with rafPending := false } else (s, 0)

/-- Events driving an `FftStore`: an external `write`, the display-frame
boundary, and an external `clear`. -/
inductive FftEv where
  | write (data : List ℚ)
  | frame
  | clear

def isFrame : FftEv → Bool
  | .frame => true
  | _ => false

def fftStep (s : FftState) : FftEv → FftState × Nat
  | .write d => fftWrite s d
  | .frame => fftFrame s
  | .clear => fftClear s

/-- Run a sequence of events, counting listener broadcasts. -/
def fftRun (s : FftState) : List FftEv → FftState × Nat
  | [] => (s, 0)
  | e :: rest =>
    let r := fftStep s e
    let r' := fftRun r.1 rest
    (r'.1, r.2 + r'.2)

end Fft

namespace Player

open ChunkReorder Fft

/-- Mutable state of the `useSoundPlayer` hook that the modelled
operations read or write. -/
structure PlayerState where
  reorder : RState
  volume : ℚ
  isAudioMuted : Bool
  isPlaying : Bool
  isInitialized : Bool
  isProcessing : Bool
  clipQueue : List (String × Nat × Nat)
  queueLength : Nat
  currentlyPlaying : Option Nat
  isWorkletActive : Bool
  hasWorkletNode : Bool
  hasAnalyser : Bool
  hasGain : Bool
  hasContext : Bool
  fftRafId : Bool
  fft : FftState
  gain : ℚ

/-- `stopAll` from `useSoundPlayer.ts` (the engine's internal close
operation): resets play state, mute flag and volume, clears the FFT
store, wipes the reordering refs, cancels the FFT polling frame, tears
down the worklet or the direct clip queue depending on the mode, and
releases the audio nodes. -/
def stopAllState (enableAudioWorklet : Bool) (s : PlayerState) : PlayerState :=
  let s1 := { s with
    isInitialized := false
    isProcessing := false
    isPlaying := false
    isAudioMuted := false
    volume := 1
    fft := (fftClear s.fft).1
    reorder := { queues := [], last := none }
    fftRafId := false }
  let s2 :=
    if enableAudioWorklet then
      { s1 with isWorkletActive := false, hasWorkletNode := false }
    else
      { s1 with currentlyPlaying := none, clipQueue := [], queueLength := 0 }
  { s2 with hasAnalyser := false, hasContext := false }

/-- `setVolume`: clamp to [0,1], store, and apply to the gain node only
when not muted. -/
def setVolume (s : PlayerState) (newLevel : ℚ) : PlayerState :=
  let clampedLevel := max 0 (min newLevel 1)
  let s1 := { s with volume := clampedLevel }
  if s.hasGain && s.hasContext && !s.isAudioMuted then
    { s1 with gain := clampedLevel }
  else s1

/-- `muteAudio`: zero the live gain without touching the stored volume. -/
def muteAudio (s : PlayerState) : PlayerState :=
  if s.hasGain && s.hasContext then
    { s with gain := 0, isAudioMuted := true }
  else s

/-- `unmuteAudio`: restore the stored volume to the live gain. -/
def unmuteAudio (s : PlayerState) : PlayerState :=
  if s.hasGain && s.hasContext then
    { s with gain := s.volume, isAudioMuted := false }
  else s

/-- Counts observable effects of `stopAllWithRetries`: how many times
`stopAll` was invoked, how many fixed-delay sleeps happened between
attempts, and how many `audio_player_closure_failure` errors were
reported. -/
structure RetryCounts where
  calls : Nat
  sleeps : Nat
  errors : Nat
  deriving DecidableEq, Repr

/-- The retry loop of `stopAllWithRetries`, by remaining attempts
(`remaining = maxAttempts - attempt + 1`).  `ok attempt` tells whether
the `await stopAll()` of that attempt succeeds or throws. -/
def retryGo (ok : Nat → Bool) : Nat → Nat → RetryCounts
  | _, 0 => ⟨0, 0, 0⟩
  | attempt, remaining + 1 =>
    if ok attempt then ⟨1, 0, 0⟩
    else if remaining = 0 then ⟨1, 0, 1⟩
    else
      let r := retryGo ok (attempt + 1) remaining
      ⟨r.calls + 1, r.sleeps + 1, r.errors⟩

/-- `stopAllWithRetries(maxAttempts, delayMs)` (`useSoundPlayer.ts`):
attempts run from 1 to `maxAttempts`; a failure sleeps `delayMs` when
more attempts remain and reports a single closure failure otherwise. -/
def stopAllWithRetries (ok : Nat → Bool) (maxAttempts : Nat) : RetryCounts :=
  retryGo ok 1 maxAttempts

end Player

namespace Coord

/-- Overall session status (`VoiceStatus` in `VoiceProvider.tsx`). -/
inductive VStatus where
  | disconnected
  | connecting
  | connected
  | error (reason : String)
  deriving DecidableEq, Repr

/-- Per-resource status (`ResourceStatus`). -/
inductive ResStatus where
  | connecting
  | connected
  | disconnecting
  | disconnected
  deriving DecidableEq, Repr

/-- A surfaced `VoiceError`, reduced to its `(type, reason)` pair. -/
abbrev VErr := String × String

/-- The coordinator state of `VoiceProvider`: overall status, the three
per-resource statuses, the in-flight-connect flag, the error slot, the
paused flag, and whether the socket's ready state is CLOSED. -/
structure CoordState where
  status : VStatus
  mic : ResStatus
  audioPlayer : ResStatus
  socket : ResStatus
  isConnecting : Bool
  error : Option VErr
  isPaused : Bool
  readyStateClosed : Bool
  deriving DecidableEq, Repr

/-- Environment outcomes for one `connect` attempt: success of each
awaited step, the error classification of a stream failure, and the
result of each `checkShouldContinueConnecting()` cancellation check. -/
structure ConnectOracle where
  streamOk : Bool
  streamPermissionDenied : Bool
  playerInitThrows : Bool
  socketOk : Bool
  micStartOk : Bool
  cont1 : Bool
  cont2 : Bool
  cont3 : Bool
  deriving DecidableEq, Repr

/-- `connect` from `VoiceProvider.tsx`: rejected outright when a connect
is already in flight or the session is connected; otherwise runs the
four-step sequence (microphone stream, audio player, socket, microphone
start) with cancellation checks between the steps. -/
def connectCoord (s : CoordState) (o : ConnectOracle) : CoordState :=
  if s.isConnecting || s.status == VStatus.connected then s
  else
    let s1 := { s with
      error := none
      status := VStatus.connecting
      socket := ResStatus.connecting
      audioPlayer := ResStatus.connecting
      mic := ResStatus.connecting
      isConnecting := true }
    if !o.streamOk then
      { s1 with error := some ("mic_error",
          if o.streamPermissionDenied then "mic_permission_denied"
          else "mic_initialization_failure") }
    else if !o.cont1 then s1
    else if o.playerInitThrows then
      { s1 with
        audioPlayer := ResStatus.disconnected
        error := some ("audio_error", "audio_player_initialization_failure") }
    else
      let s2 := { s1 with audioPlayer := ResStatus.connected }
      if !o.cont2 then s2
      else if !o.socketOk then s2
      else
        let s3 := { s2 with socket := ResStatus.connected }
        if !o.cont3 then s3
        else if !o.micStartOk then
          { s3 with
            mic := ResStatus.disconnected
            error := some ("mic_error", "mic_initialization_failure") }
        else
          { s3 with
            mic := ResStatus.connected
            status := VStatus.connected
            isConnecting := false }

/-- `disconnectAndCleanUpResources`: marks the resources disconnecting,
cancels any in-flight connect, stops the microphone, closes the socket
when not already closed, tears down the player, and resets the paused
flag.  It does not touch `status`. -/
def disconnectCleanup (s : CoordState) : CoordState :=
  let s1 := { s with
    socket := ResStatus.disconnecting
    audioPlayer := ResStatus.disconnecting
    mic := ResStatus.disconnecting
    isConnecting := false }
  let s2 := { s1 with mic := ResStatus.disconnected }
  let s3 :=
    if s2.readyStateClosed then { s2 with socket := ResStatus.disconnected }
    else s2
  let s4 := { s3 with audioPlayer := ResStatus.disconnected }
  { s4 with isPaused := false }

def statusIsError : VStatus → Bool
  | .error _ => true
  | _ => false

/-- `disconnect(disconnectOnError?)` from `VoiceProvider.tsx`: runs the
cleanup, then sets the status to `disconnected` only when the status is
not `error` and the flag was not passed. -/
def disconnectCoord (s : CoordState) (disconnectOnError : Bool) : CoordState :=
  let s' := disconnectCleanup s
  if !statusIsError s'.status && !disconnectOnError then
    { s' with status := VStatus.disconnected }
  else s'

end Coord

namespace Bark

/-- The fixed 24-entry Bark center-frequency table
(`convertFrequencyScale.ts`). -/
def barkCenterFrequencies : List ℚ :=
  [50, 150, 250, 350, 450, 570, 700, 840, 1000, 1170, 1370, 1600, 1850, 2150,
    2500, 2900, 3400, 4000, 4800, 5800, 7000, 8500, 10500, 13500]

/-- `minValue` (byte-range magnitude minimum). -/
def minValue : ℚ := 0

/-- `maxValue` (byte-range magnitude maximum). -/
def maxValue : ℚ := 255

/-- `convertLinearFrequenciesToBark` from `convertFrequencyScale.ts`,
with JavaScript numbers embedded as rationals and `Math.round` as
`round` (both round half toward positive infinity).  The input byte
magnitudes are naturals. -/
def convertLinearFrequenciesToBark (linearData : List Nat) (sampleRate : ℚ) :
    List ℚ :=
  let maxFrequency := sampleRate / 2
  let frequencyResolution := maxFrequency / (linearData.length : ℚ)
  barkCenterFrequencies.map (fun barkFreq =>
    let linearDataIndex : ℤ := round (barkFreq / frequencyResolution)
    if 0 ≤ linearDataIndex ∧ linearDataIndex < (linearData.length : ℤ) then
      (((linearData.getD linearDataIndex.toNat 0 : Nat) : ℚ) - minValue)
          / (maxValue - minValue) * 2
    else 0)

/-- The output formula as the specification states it: band `i` maps the
center frequency to the nearest linear bin
`round(centerFreq / ((sampleRate/2) / N))` and normalizes the byte
magnitude to `(m - 0) / (255 - 0) * 2`, or 0 when the bin is out of
range. -/
def barkSpecOutput (magnitudes : List Nat) (sampleRate : ℚ) (i : Nat) : ℚ :=
  let centerFreq := barkCenterFrequencies.getD i 0
  let idx : ℤ := round (centerFreq / ((sampleRate / 2) / (magnitudes.length : ℚ)))
  if 0 ≤ idx ∧ idx < (magnitudes.length : ℤ) then
    (((magnitudes.getD idx.toNat 0 : Nat) : ℚ) - 0) / (255 - 0) * 2
  else 0

end Bark

namespace ChunkReorder

theorem slotGet_nil (i : Nat) : slotGet [] i = none := by
  simp [slotGet]

theorem lt_length_of_slotGet_eq_some {a : List (Option Nat)} {i : Nat} {b : Nat}
    (h : slotGet a i = some b) : i < a.length := by
  by_contra hlt
  push_neg at hlt
  rw [slotGet, List.getD_eq_getElem?_getD, List.getElem?_eq_none hlt] at h
  simp at h

theorem length_slotSet_of_lt {a : List (Option Nat)} {i : Nat} {v : Option Nat}
    (h : i < a.length) : (slotSet a i v).length = a.length := by
  simp [slotSet, h]

theorem slotGet_slotSet (a : List (Option Nat)) (i : Nat) (v : Option Nat) (j : Nat) :
    slotGet (slotSet a i v) j = if j = i then v else slotGet a j := by
  simp only [slotGet, slotSet, List.getD_eq_getElem?_getD]
  by_cases hi : i < a.length
  · rw [if_pos hi, List.getElem?_set]
    rcases eq_or_ne j i with rfl | hji
    · simp [hi]
    · simp [hji, Ne.symm hji]
  · rw [if_neg hi]
    push_neg at hi
    have hfront :
        (a ++ List.replicate (i - a.length) (none : Option Nat)).length = i := by
      simp
      omega
    rcases eq_or_ne j i with rfl | hji
    · rw [if_pos rfl, List.getElem?_append, if_neg (by rw [hfront]; omega), hfront]
      simp
    · rw [if_neg hji, List.getElem?_append]
      by_cases hj :
          j < (a ++ List.replicate (i - a.length) (none : Option Nat)).length
      · rw [if_pos hj, List.getElem?_append]
        by_cases hja : j < a.length
        · rw [if_pos hja]
        · rw [if_neg hja, List.getElem?_replicate]
          rw [hfront] at hj
          rw [if_pos (by omega)]
          rw [List.getElem?_eq_none (by omega)]
          rfl
      · rw [if_neg hj]
        rw [hfront] at hj
        push_neg at hj
        rw [List.getElem?_eq_none (by simp [hfront]; omega)]
        rw [List.getElem?_eq_none (by omega)]

theorem drainFrom_none {a : List (Option Nat)} {i : Nat}
    (h : slotGet a i = none) : drainFrom a i = (a, []) := by
  rw [drainFrom]
  rcases hf : a.length + 1 - i with _ | fuel
  · rfl
  · simp [drainAux, h]

theorem drainFrom_some {a : List (Option Nat)} {i : Nat} {b : Nat}
    (h : slotGet a i = some b) :
    drainFrom a i =
      ((drainFrom (slotSet a i none) (i + 1)).1,
        (i, b) :: (drainFrom (slotSet a i none) (i + 1)).2) := by
  have hi : i < a.length := lt_length_of_slotGet_eq_some h
  have hlen := length_slotSet_of_lt (a := a) (i := i) (v := none) hi
  rw [drainFrom, drainFrom, hlen]
  have hf : a.length + 1 - i = (a.length + 1 - (i + 1)) + 1 := by omega
  rw [hf]
  simp [drainAux, h]

theorem qLookup_qUpdate_self (qs : List (String × List (Option Nat)))
    (id : String) (arr : List (Option Nat)) :
    qLookup (qUpdate qs id arr) id = arr := by
  induction qs with
  | nil => simp [qUpdate, qLookup]
  | cons e rest ih =>
    by_cases h : e.1 = id
    · simp [qUpdate, h, qLookup]
    · simp [qUpdate, h, qLookup, ih]

theorem qLookup_qUpdate_other (qs : List (String × List (Option Nat)))
    (id id' : String) (arr : List (Option Nat)) (h : id' ≠ id) :
    qLookup (qUpdate qs id arr) id' = qLookup qs id' := by
  induction qs with
  | nil => simp [qUpdate, qLookup, Ne.symm h]
  | cons e rest ih =>
    by_cases he : e.1 = id
    · simp [qUpdate, he, qLookup, Ne.symm h]
    · simp [qUpdate, he, qLookup, ih]

theorem drainFrom_spec (P : Nat → Prop) :
    ∀ (d : Nat) (a : List (Option Nat)) (i : Nat),
      (∀ j, i ≤ j → ((slotGet a j).isSome ↔ P j)) →
      (∀ j, i ≤ j → j < i + d → P j) → ¬ P (i + d) →
      (drainFrom a i).2.map Prod.fst = List.range' i d ∧
      ∀ j, i + d ≤ j → slotGet (drainFrom a i).1 j = slotGet a j := by
  intro d
  induction d with
  | zero =>
    intro a i hchar _ hm
    have hnone : slotGet a i = none := by
      rcases h : slotGet a i with _ | b
      · rfl
      · exact absurd ((hchar i le_rfl).1 (by simp [h])) (by simpa using hm)
    rw [drainFrom_none hnone]
    exact ⟨rfl, fun j _ => rfl⟩
  | succ d ih =>
    intro a i hchar hrun hm
    have hi : P i := hrun i le_rfl (by omega)
    obtain ⟨b, hb⟩ : ∃ b, slotGet a i = some b := by
      have hs := (hchar i le_rfl).2 hi
      rcases h : slotGet a i with _ | b
      · rw [h] at hs; simp at hs
      · exact ⟨b, rfl⟩
    rw [drainFrom_some hb]
    have hchar' : ∀ j, i + 1 ≤ j →
        ((slotGet (slotSet a i none) j).isSome ↔ P j) := by
      intro j hj
      rw [slotGet_slotSet, if_neg (by omega)]
      exact hchar j (by omega)
    have hrun' : ∀ j, i + 1 ≤ j → j < (i + 1) + d → P j := by
      intro j hj hj2
      exact hrun j (by omega) (by omega)
    have hm' : ¬ P ((i + 1) + d) := by
      rw [show (i + 1) + d = i + (d + 1) by omega]
      exact hm
    obtain ⟨h1, h2⟩ := ih (slotSet a i none) (i + 1) hchar' hrun' hm'
    constructor
    · simp only [List.map_cons, h1]
      rw [List.range'_succ]
    · intro j hj
      rw [h2 j (by omega), slotGet_slotSet, if_neg (by omega)]

theorem inv_init (u : String) : Inv u (fun _ => False) initRState [] := by
  refine ⟨0, 0, ?_, ?_, ?_, ?_, ?_, ?_⟩ <;>
    simp [initRState, qLookup, slotGet]

theorem inv_congr {u : String} {P Q : Nat → Prop} {s : RState} {rel : List Rel}
    (hPQ : ∀ j, P j ↔ Q j) (h : Inv u P s rel) : Inv u Q s rel := by
  obtain ⟨k, B, h1, h2, h3, h4, h5, h6⟩ := h
  exact ⟨k, B, fun j hj => (hPQ j).1 (h1 j hj), fun hq => h2 ((hPQ k).2 hq),
    fun j hj hq => h3 j hj ((hPQ j).2 hq), h4, h5,
    fun j hj => (h6 j hj).trans (hPQ j)⟩

theorem inv_register {u : String} {P : Nat → Prop} {s : RState} {rel : List Rel}
    (h : Inv u P s rel) (idx buf : Nat) :
    Inv u (fun j => j = idx ∨ P j) (register s u idx buf).1
      (rel ++ (register s u idx buf).2) := by
  classical
  obtain ⟨k, B, hlt, hk, hB, hrel, hlast, hslots⟩ := h
  set P' : Nat → Prop := fun j => j = idx ∨ P j with hP'
  set arr := slotSet (qLookup s.queues u) idx (some buf) with harr
  have harr_char : ∀ j, k ≤ j → ((slotGet arr j).isSome ↔ P' j) := by
    intro j hj
    rw [harr, slotGet_slotSet]
    rcases eq_or_ne j idx with rfl | hji
    · simp [hP']
    · rw [if_neg hji]
      simp only [hP', hji, false_or]
      exact hslots j hj
  -- bound for P'
  have hB' : ∀ j, max B (idx + 1) ≤ j → ¬ P' j := by
    intro j hj
    simp only [hP', not_or]
    exact ⟨by omega, hB j (by omega)⟩
  -- the set of candidate stopping indices is nonempty above any start
  have hne : ∀ i : Nat, {j : Nat | i ≤ j ∧ ¬ P' j}.Nonempty := by
    intro i
    exact ⟨max i (max B (idx + 1)), ⟨by omega, hB' _ (by omega)⟩⟩
  rcases Nat.eq_zero_or_pos k with hk0 | hkpos
  · -- nothing started yet: `lastQueuedChunk` is null
    subst hk0
    have hlast0 : s.last = none := by simpa using hlast
    have hrel0 : rel = [] := by
      have := congrArg List.length hrel
      simpa using this
    subst hrel0
    rcases eq_or_ne idx 0 with rfl | hidx
    · -- index 0 arrives: the utterance starts and drains
      have hslot0 : slotGet arr 0 = some buf := by
        rw [harr, slotGet_slotSet, if_pos rfl]
      set m := sInf {j : Nat | 1 ≤ j ∧ ¬ P' j} with hm
      have hmmem : 1 ≤ m ∧ ¬ P' m := Nat.sInf_mem (hne 1)
      have hmmin : ∀ j, 1 ≤ j → j < m → P' j := by
        intro j hj hjm
        by_contra hnp
        have hmem : j ∈ {j : Nat | 1 ≤ j ∧ ¬ P' j} := ⟨hj, hnp⟩
        exact absurd (Nat.sInf_le hmem) (by omega)
      have harr1_char : ∀ j, 1 ≤ j →
          ((slotGet (slotSet arr 0 none) j).isSome ↔ P' j) := by
        intro j hj
        rw [slotGet_slotSet, if_neg (by omega)]
        exact harr_char j (by omega)
      obtain ⟨hd1, hd2⟩ := drainFrom_spec P' (m - 1) (slotSet arr 0 none) 1
        harr1_char (by intro j hj hjm; exact hmmin j hj (by omega))
        (by rw [show 1 + (m - 1) = m by omega]; exact hmmem.2)
      have hdlen : (drainFrom (slotSet arr 0 none) 1).2.length = m - 1 := by
        have := congrArg List.length hd1
        simpa using this
      refine ⟨m, max B 1, ?_, hmmem.2, ?_, ?_, ?_, ?_⟩
      · intro j hj
        rcases Nat.eq_zero_or_pos j with rfl | hjpos
        · exact Or.inl rfl
        · exact hmmin j hjpos hj
      · intro j hj
        simp only [hP', not_or]
        refine ⟨by omega, hB j (by omega)⟩
      · -- released keys are (u, 0), (u, 1), ..., (u, m-1)
        simp only [register, hlast0, startNew, hslot0, List.nil_append]
        simp only [List.map_cons, List.map_map]
        rw [show ((fun r => relKey r) ∘ (fun p : Nat × Nat => (u, p.1, p.2)))
            = (fun p : Nat × Nat => (u, p.1)) from rfl]
        have hstep : (drainFrom (slotSet arr 0 none) 1).2.map
              (fun p : Nat × Nat => (u, p.1))
            = (List.range' 1 (m - 1)).map (fun j => (u, j)) := by
          rw [← hd1, List.map_map]
          rfl
        have h0 : List.range m = 0 :: List.range' 1 (m - 1) := by
          obtain ⟨d, hd⟩ : ∃ d, m = d + 1 := ⟨m - 1, by omega⟩
          rw [hd]
          simp [List.range_eq_range', List.range'_succ]
        rw [hstep, h0]
        simp [relKey]
      · -- `lastQueuedChunk` now points at index m - 1
        simp only [register, hlast0, startNew, hslot0]
        rw [hdlen, if_neg (by omega)]
      · -- remaining slots above m are untouched
        intro j hj
        simp only [register, hlast0, startNew, hslot0]
        rw [qLookup_qUpdate_self]
        rw [hd2 j (by omega), slotGet_slotSet, if_neg (by omega)]
        exact harr_char j (by omega)
    · -- non-zero index for a not-yet-started utterance: held, nothing released
      have h0notP : ¬ P' 0 := by
        simp only [hP', not_or]
        exact ⟨Ne.symm hidx, by simpa using hk⟩
      have hslot0 : slotGet arr 0 = none := by
        rcases h : slotGet arr 0 with _ | b
        · rfl
        · exact absurd ((harr_char 0 (by omega)).1 (by simp [h])) h0notP
      refine ⟨0, max B (idx + 1), by omega, h0notP, hB', ?_, ?_, ?_⟩
      · simp only [register, hlast0, startNew, hslot0]
        simpa using hrel
      · simp only [register, hlast0, startNew, hslot0]
        simpa using hlast0
      · intro j hj
        simp only [register, hlast0, startNew, hslot0]
        rw [qLookup_qUpdate_self]
        exact harr_char j hj
  · -- utterance already started: drain from k
    have hlastk : s.last = some (u, k - 1) := by
      rw [hlast, if_neg (by omega)]
    set m := sInf {j : Nat | k ≤ j ∧ ¬ P' j} with hm
    have hmmem : k ≤ m ∧ ¬ P' m := Nat.sInf_mem (hne k)
    have hmmin : ∀ j, k ≤ j → j < m → P' j := by
      intro j hj hjm
      by_contra hnp
      have hmem : j ∈ {j : Nat | k ≤ j ∧ ¬ P' j} := ⟨hj, hnp⟩
      exact absurd (Nat.sInf_le hmem) (by omega)
    obtain ⟨hd1, hd2⟩ := drainFrom_spec P' (m - k) arr k harr_char
      (by intro j hj hjm; exact hmmin j hj (by omega))
      (by rw [show k + (m - k) = m by omega]; exact hmmem.2)
    have hdlen : (drainFrom arr k).2.length = m - k := by
      have := congrArg List.length hd1
      simpa using this
    have hstep : (drainFrom arr k).2.map (fun p : Nat × Nat => (u, p.1))
        = (List.range' k (m - k)).map (fun j => (u, j)) := by
      rw [← hd1, List.map_map]
      rfl
    have hk1 : k - 1 + 1 = k := by omega
    have happ : List.range' 0 k ++ List.range' k (m - k) = List.range' 0 m := by
      have h := List.range'_append 0 k (m - k) 1
      simpa [show m - k + k = m by omega, show k + (m - k) = m by omega] using h
    refine ⟨m, max B (idx + 1), ?_, hmmem.2, hB', ?_, ?_, ?_⟩
    · intro j hj
      rcases Nat.lt_or_ge j k with hjk | hjk
      · exact Or.inr (hlt j hjk)
      · exact hmmin j hjk hj
    · -- cumulative released keys now form the prefix of length m
      have hcomp :
          List.map relKey ((drainFrom arr k).2.map (fun p : Nat × Nat => (u, p.1, p.2)))
            = (drainFrom arr k).2.map (fun p : Nat × Nat => (u, p.1)) := by
        rw [List.map_map]
        rfl
      simp only [register, hlastk, hk1, if_true]
      rw [← harr]
      simp only [List.map_append]
      rw [hcomp, hstep, hrel]
      simp only [List.range_eq_range']
      rw [← List.map_append, happ]
    · -- `lastQueuedChunk` now points at index m - 1
      have hm1 : 0 < m := lt_of_lt_of_le hkpos hmmem.1
      simp only [register, hlastk, hk1, if_true]
      rw [← harr, hdlen, if_neg (by omega)]
      have harith : k - 1 + (m - k) = m - 1 := by omega
      rw [harith]
    · -- remaining slots above m are untouched
      intro j hj
      simp only [register, hlastk, hk1, if_true]
      rw [← harr, qLookup_qUpdate_self]
      rw [hd2 j (by omega)]
      exact harr_char j (by omega)

theorem runRegs_inv (u : String) (regs : List (Nat × Nat)) :
    ∀ (P : Nat → Prop) (s : RState) (rel : List Rel), Inv u P s rel →
      Inv u (fun j => j ∈ regs.map Prod.fst ∨ P j)
        (runRegs s (regs.map (fun p => (u, p.1, p.2)))).1
        (rel ++ (runRegs s (regs.map (fun p => (u, p.1, p.2)))).2) := by
  induction regs with
  | nil =>
    intro P s rel h
    refine inv_congr ?_ (by simpa [runRegs] using h)
    intro j
    simp
  | cons p rest ih =>
    intro P s rel h
    have h1 := inv_register h p.1 p.2
    have h2 := ih _ _ _ h1
    have h2' : Inv u (fun j => j ∈ rest.map Prod.fst ∨ (j = p.1 ∨ P j))
        (runRegs s ((p :: rest).map (fun q => (u, q.1, q.2)))).1
        (rel ++ (runRegs s ((p :: rest).map (fun q => (u, q.1, q.2)))).2) := by
      simpa [runRegs, List.append_assoc] using h2
    refine inv_congr ?_ h2'
    intro j
    constructor
    · rintro (hm | (rfl | hp))
      · exact Or.inl (by simp [hm])
      · exact Or.inl (by simp)
      · exact Or.inr hp
    · rintro (hm | hp)
      · simp at hm
        rcases hm with rfl | hm
        · exact Or.inr (Or.inl rfl)
        · exact Or.inl (by simpa using hm)
      · exact Or.inr (Or.inr hp)

/-- Characterization of a full single-utterance run from the fresh state:
the released keys always form a contiguous prefix `(u, 0) … (u, k-1)`. -/
theorem runRegs_single_utterance (u : String) (regs : List (Nat × Nat)) :
    ∃ k,
      (∀ j, j < k → j ∈ regs.map Prod.fst) ∧ k ∉ regs.map Prod.fst ∧
      (runRegs initRState (regs.map (fun p => (u, p.1, p.2)))).2.map relKey
        = (List.range k).map (fun j => (u, j)) := by
  have h := runRegs_inv u regs (fun _ => False) initRState [] (inv_init u)
  obtain ⟨k, B, hlt, hk, hB, hrel, hlast, hslots⟩ := h
  refine ⟨k, ?_, ?_, ?_⟩
  · intro j hj
    rcases hlt j hj with hm | hf
    · exact hm
    · exact absurd hf (by simp)
  · intro hm
    exact hk (Or.inl hm)
  · simpa using hrel

end ChunkReorder

namespace Fft

theorem fftRun_append (s : FftState) (l1 l2 : List FftEv) :
    fftRun s (l1 ++ l2)
      = ((fftRun (fftRun s l1).1 l2).1,
          (fftRun s l1).2 + (fftRun (fftRun s l1).1 l2).2) := by
  induction l1 generalizing s with
  | nil => simp [fftRun]
  | cons e rest ih =>
    simp only [List.cons_append, fftRun, List.append_eq]
    rw [ih]
    simp [Nat.add_assoc]

theorem fftWrite_notifies_zero (s : FftState) (d : List ℚ) :
    (fftWrite s d).2 = 0 := by
  rw [fftWrite]
  split <;> rfl

theorem fftWrite_dirty_pending (s : FftState) (d : List ℚ)
    (h : s.dirty = true ∧ s.rafPending = true) :
    (fftWrite s d).1.dirty = true ∧ (fftWrite s d).1.rafPending = true := by
  simp [fftWrite, h.1, h.2]

theorem fftWrite_fresh (s : FftState) (d : List ℚ) (h : s.dirty = false) :
    (fftWrite s d).1.dirty = true ∧ (fftWrite s d).1.rafPending = true := by
  simp only [fftWrite, h]
  rw [fftScheduleFlush]
  rcases hp : s.rafPending with _ | _ <;> simp [hp]

theorem fftRun_writes_steady (ds : List (List ℚ)) :
    ∀ s : FftState, s.dirty = true → s.rafPending = true →
      (fftRun s (ds.map FftEv.write)).2 = 0 ∧
      (fftRun s (ds.map FftEv.write)).1.dirty = true ∧
      (fftRun s (ds.map FftEv.write)).1.rafPending = true := by
  induction ds with
  | nil => intro s h1 h2; exact ⟨rfl, h1, h2⟩
  | cons d rest ih =>
    intro s h1 h2
    obtain ⟨hw1, hw2⟩ := fftWrite_dirty_pending s d ⟨h1, h2⟩
    simp only [List.map_cons, fftRun, fftStep]
    obtain ⟨ih1, ih2, ih3⟩ := ih (fftWrite s d).1 hw1 hw2
    refine ⟨?_, ih2, ih3⟩
    rw [fftWrite_notifies_zero, ih1]

theorem fftRun_writes_from_clean (s : FftState) (ds : List (List ℚ))
    (hclean : s.dirty = false) (hne : ds ≠ []) :
    (fftRun s (ds.map FftEv.write)).2 = 0 ∧
    (fftRun s (ds.map FftEv.write)).1.dirty = true ∧
    (fftRun s (ds.map FftEv.write)).1.rafPending = true := by
  rcases ds with _ | ⟨d, rest⟩
  · exact absurd rfl hne
  · obtain ⟨hw1, hw2⟩ := fftWrite_fresh s d hclean
    simp only [List.map_cons, fftRun, fftStep]
    obtain ⟨ih1, ih2, ih3⟩ := fftRun_writes_steady rest (fftWrite s d).1 hw1 hw2
    refine ⟨?_, ih2, ih3⟩
    rw [fftWrite_notifies_zero, ih1]

theorem fftFrame_notifies_le_one (s : FftState) : (fftFrame s).2 ≤ 1 := by
  rw [fftFrame]
  split
  · rw [fftFlush]
    split <;> simp
  · simp

theorem fftRun_notifications_le_frames (evs : List FftEv)
    (hnoclear : ∀ e ∈ evs, e ≠ FftEv.clear) :
    ∀ s : FftState, (fftRun s evs).2 ≤ evs.countP isFrame := by
  induction evs with
  | nil => intro s; simp [fftRun]
  | cons e rest ih =>
    intro s
    have hrest : ∀ e ∈ rest, e ≠ FftEv.clear := by
      intro x hx
      exact hnoclear x (List.mem_cons_of_mem _ hx)
    have hihs := ih hrest
    cases e with
    | write d =>
      simp only [fftRun, fftStep, List.countP_cons]
      rw [fftWrite_notifies_zero]
      simpa [isFrame] using hihs (fftWrite s d).1
    | frame =>
      have h1 := fftFrame_notifies_le_one s
      have h2 := hihs (fftFrame s).1
      simp only [fftRun, fftStep, List.countP_cons]
      simp only [show isFrame FftEv.frame = true from rfl, if_true]
      omega
    | clear => exact absurd rfl (hnoclear _ (List.mem_cons_self _ _))

end Fft

namespace Player

open ChunkReorder Fft

theorem retryGo_all_fail (ok : Nat → Bool) (hfail : ∀ a, ok a = false) :
    ∀ remaining attempt, 1 ≤ remaining →
      retryGo ok attempt remaining = ⟨remaining, remaining - 1, 1⟩ := by
  intro remaining
  induction remaining with
  | zero => intro attempt h; omega
  | succ r ih =>
    intro attempt _
    rcases Nat.eq_zero_or_pos r with rfl | hr
    · simp [retryGo, hfail]
    · rw [retryGo, hfail, ih (attempt + 1) hr]
      simp only [if_neg (by omega : ¬ r = 0), Bool.false_eq_true, if_false]
      refine congrArg₂ _ ?_ rfl
      omega

end Player

section ChunkReorderExamples

open ChunkReorder

example :
    (runRegs initRState [("x", 0, 10), ("x", 2, 12), ("x", 1, 11)]).2 =
      [("x", 0, 10), ("x", 1, 11), ("x", 2, 12)] := by decide

example :
    (runRegs initRState [("x", 2, 12), ("y", 0, 20)]).2 = [("y", 0, 20)] := by
  decide

example :
    (runRegs initRState [("x", 2, 12), ("y", 0, 20), ("x", 0, 10), ("x", 1, 11)]).2 =
      [("y", 0, 20), ("x", 0, 10), ("x", 1, 11), ("x", 2, 12)] := by decide

-- stale duplicate slot-0 scenario: (x,0) re-released after utterance switch
example :
    (runRegs initRState [("x", 0, 10), ("x", 0, 99), ("y", 0, 20), ("x", 1, 11)]).2 =
      [("x", 0, 10), ("y", 0, 20), ("x", 0, 99), ("x", 1, 11)] := by decide

end ChunkReorderExamples
namespace ChunkReorder

theorem register_foreign_nonzero_held (s : RState) (id : String) (idx buf : Nat)
    (hcur : ∀ li : String × Nat, s.last = some li → li.1 ≠ id)
    (hidx : idx ≠ 0)
    (hslot0 : slotGet (qLookup s.queues id) 0 = none) :
    (register s id idx buf).2 = [] ∧
    (register s id idx buf).1.last = s.last ∧
    slotGet (qLookup (register s id idx buf).1.queues id) idx = some buf := by
  have harr0 : slotGet (slotSet (qLookup s.queues id) idx (some buf)) 0 = none := by
    rw [slotGet_slotSet, if_neg (Ne.symm hidx)]
    exact hslot0
  cases hl : s.last with
  | none =>
    simp only [register, hl, startNew, harr0]
    refine ⟨by trivial, by trivial, ?_⟩
    rw [qLookup_qUpdate_self, slotGet_slotSet, if_pos rfl]
  | some li =>
    obtain ⟨lid, lidx⟩ := li
    have hne : lid ≠ id := hcur (lid, lidx) hl
    simp only [register, hl, if_neg hne, startNew, harr0]
    refine ⟨by trivial, by trivial, ?_⟩
    rw [qLookup_qUpdate_self, slotGet_slotSet, if_pos rfl]

end ChunkReorder

/-- C1: for every N ≥ 1 and every arrival permutation of the indices
0..N-1 of a single utterance, registered one at a time with no
duplicates, the concatenation of the released fragments is exactly the
keys (u, 0), (u, 1), …, (u, N-1), in strictly ascending order, each
index released exactly once. -/
theorem chunkReorderBuffer_permutation_releases_ascending
    (u : String) (N : Nat) (order : List Nat) (bufs : Nat → Nat)
    (hN : 1 ≤ N) (hperm : order.Perm (List.range N)) :
    (ChunkReorder.runRegs ChunkReorder.initRState
        (order.map (fun i => (u, i, bufs i)))).2.map ChunkReorder.relKey
      = (List.range N).map (fun j => (u, j)) := by
  obtain ⟨k, hk1, hk2, hk3⟩ :=
    ChunkReorder.runRegs_single_utterance u (order.map (fun i => (i, bufs i)))
  have hfst : (order.map (fun i => (i, bufs i))).map Prod.fst = order := by
    rw [List.map_map]
    exact List.map_id order
  have hmm : (order.map (fun i => (i, bufs i))).map
        (fun p : Nat × Nat => (u, p.1, p.2))
      = order.map (fun i => (u, i, bufs i)) := by
    rw [List.map_map]
    rfl
  rw [hfst] at hk1 hk2
  have hmem : ∀ j, j ∈ order ↔ j < N := by
    intro j
    rw [hperm.mem_iff, List.mem_range]
  have hkN : k = N := by
    rcases Nat.lt_trichotomy k N with hlt | heq | hgt
    · exact absurd ((hmem k).2 hlt) hk2
    · exact heq
    · exact absurd ((hmem N).1 (hk1 N hgt)) (by omega)
  rw [hmm] at hk3
  rw [hk3, hkN]

/-- C1 witness: the permutation [2, 0, 1] of 0..2 replays as 0, 1, 2. -/
theorem chunkReorderBuffer_permutation_releases_ascending_witness :
    1 ≤ 3 ∧ ([2, 0, 1] : List Nat).Perm (List.range 3) ∧
    (ChunkReorder.runRegs ChunkReorder.initRState
        ([2, 0, 1].map (fun i => ("a", i, i + 100)))).2.map ChunkReorder.relKey
      = (List.range 3).map (fun j => ("a", j)) :=
  ⟨by decide, by decide,
    chunkReorderBuffer_permutation_releases_ascending "a" 3 [2, 0, 1]
      (fun i => i + 100) (by decide) (by decide)⟩

/-- C2 counterexample: with the tracked utterance being "y" and a stale
re-sent index 0 of "x" occupying slot 0, register("x", 2) — a fragment
whose utterance is not the tracked one and whose index is non-zero —
releases ("x", 0) rather than releasing nothing. -/
theorem chunkReorderBuffer_foreign_nonzero_release_counterexample :
    (ChunkReorder.runRegs ChunkReorder.initRState
        [("x", 0, 10), ("x", 0, 99), ("y", 0, 20)]).1.last = some ("y", 0) ∧
    (ChunkReorder.register
        (ChunkReorder.runRegs ChunkReorder.initRState
          [("x", 0, 10), ("x", 0, 99), ("y", 0, 20)]).1 "x" 2 12).2
      = [("x", 0, 99)] := by
  constructor
  · decide
  · decide

/-- C2 (amended): a registered fragment whose utterance is not the
currently-tracked one and whose index is non-zero is held — the register
call releases nothing, leaves the tracked utterance unchanged, and keeps
the fragment stored — provided that utterance's slot 0 is unoccupied (no
stale re-sent index 0).  In particular register("x",2); register("y",0)
releases only ("y",0), with ("x",2) still held, and ("x",2) is released
after ("x",0) and ("x",1) arrive. -/
theorem chunkReorderBuffer_foreign_nonzero_held
    (s : ChunkReorder.RState) (id : String) (idx buf : Nat)
    (hcur : ∀ li : String × Nat, s.last = some li → li.1 ≠ id)
    (hidx : idx ≠ 0)
    (hslot0 : ChunkReorder.slotGet (ChunkReorder.qLookup s.queues id) 0 = none) :
    ((ChunkReorder.register s id idx buf).2 = [] ∧
      (ChunkReorder.register s id idx buf).1.last = s.last ∧
      ChunkReorder.slotGet
        (ChunkReorder.qLookup (ChunkReorder.register s id idx buf).1.queues id)
        idx = some buf) ∧
    ((ChunkReorder.runRegs ChunkReorder.initRState
        [("x", 2, 12), ("y", 0, 20)]).2 = [("y", 0, 20)] ∧
      ChunkReorder.slotGet
        (ChunkReorder.qLookup
          (ChunkReorder.runRegs ChunkReorder.initRState
            [("x", 2, 12), ("y", 0, 20)]).1.queues "x") 2 = some 12 ∧
      (ChunkReorder.runRegs ChunkReorder.initRState
          [("x", 2, 12), ("y", 0, 20), ("x", 0, 10), ("x", 1, 11)]).2
        = [("y", 0, 20), ("x", 0, 10), ("x", 1, 11), ("x", 2, 12)]) :=
  ⟨ChunkReorder.register_foreign_nonzero_held s id idx buf hcur hidx hslot0,
    by decide, by decide, by decide⟩

/-- C2 witness: registering ("x", 2) into the fresh buffer releases
nothing and holds the fragment. -/
theorem chunkReorderBuffer_foreign_nonzero_held_witness :
    (ChunkReorder.register ChunkReorder.initRState "x" 2 12).2 = [] ∧
    (ChunkReorder.register ChunkReorder.initRState "x" 2 12).1.last
      = ChunkReorder.initRState.last ∧
    ChunkReorder.slotGet
      (ChunkReorder.qLookup
        (ChunkReorder.register ChunkReorder.initRState "x" 2 12).1.queues "x") 2
      = some 12 :=
  (chunkReorderBuffer_foreign_nonzero_held ChunkReorder.initRState "x" 2 12
    (fun li h => Option.noConfusion h)
    (by decide) (by decide)).1

/-- C3 counterexample: after register("x",0), a duplicate
register("x",0), register("y",0) and register("x",1), the already-passed
index ("x", 0) is delivered to playback a second time. -/
theorem chunkReorderBuffer_stale_duplicate_redelivery_counterexample :
    ((ChunkReorder.runRegs ChunkReorder.initRState
        [("x", 0, 10), ("x", 0, 99), ("y", 0, 20), ("x", 1, 11)]).2.map
          ChunkReorder.relKey).count ("x", 0) = 2 := by
  decide

/-- C3 (amended): while the utterance remains the currently-tracked one
— in particular for any registration sequence of a single utterance,
duplicates and stale indices included — an index that has been released
is never released again: the released keys are exactly (u, 0) … (u, L-1)
for L the number of releases, so each index appears at most once.
(Re-delivery is possible only after the tracked utterance switches away
while a stale fragment occupies that utterance's slot 0.) -/
theorem chunkReorderBuffer_single_utterance_no_redelivery
    (u : String) (regs : List (Nat × Nat)) :
    (ChunkReorder.runRegs ChunkReorder.initRState
        (regs.map (fun p => (u, p.1, p.2)))).2.map ChunkReorder.relKey
      = (List.range
          ((ChunkReorder.runRegs ChunkReorder.initRState
            (regs.map (fun p => (u, p.1, p.2)))).2.length)).map
          (fun j => (u, j)) := by
  obtain ⟨k, hk1, hk2, hk3⟩ := ChunkReorder.runRegs_single_utterance u regs
  have hlen : (ChunkReorder.runRegs ChunkReorder.initRState
      (regs.map (fun p => (u, p.1, p.2)))).2.length = k := by
    have := congrArg List.length hk3
    simpa using this
  rw [hlen, hk3]

/-- C4: resetting the reorder buffer (the `stopAll` lines
`chunkBufferQueues.current = {}` and `lastQueuedChunk.current = null`)
restores it to its initial state, so every subsequent registration
sequence produces exactly the same result as on a freshly constructed
buffer. -/
theorem chunkReorderBuffer_reset_behaves_fresh
    (w : Bool) (s : Player.PlayerState) (regs : List (String × Nat × Nat)) :
    (Player.stopAllState w s).reorder = ChunkReorder.initRState ∧
    ChunkReorder.runRegs (Player.stopAllState w s).reorder regs
      = ChunkReorder.runRegs ChunkReorder.initRState regs := by
  have h : (Player.stopAllState w s).reorder = ChunkReorder.initRState := by
    cases w <;> rfl
  exact ⟨h, by rw [h]⟩

/-- C5: for byte magnitudes (values 0..255) with N ≥ 1 and sampleRate >
0, the frequency-band reducer outputs exactly 24 values, and value `i`
equals the specification's formula: the magnitude at bin
`round(center_i / ((sampleRate/2) / N))` normalized as
`(m - 0) / (255 - 0) * 2` when the bin is in `[0, N)`, else 0. -/
theorem convertFrequencyScale_matches_bark_spec
    (magnitudes : List Nat) (sampleRate : ℚ)
    (hN : 1 ≤ magnitudes.length) (hsr : 0 < sampleRate)
    (hbyte : ∀ v ∈ magnitudes, v ≤ 255) :
    (Bark.convertLinearFrequenciesToBark magnitudes sampleRate).length = 24 ∧
    ∀ i, i < 24 →
      (Bark.convertLinearFrequenciesToBark magnitudes sampleRate).getD i 0
        = Bark.barkSpecOutput magnitudes sampleRate i := by
  constructor
  · rw [Bark.convertLinearFrequenciesToBark, List.length_map]
    rfl
  · intro i hi
    have hi' : i < Bark.barkCenterFrequencies.length := by
      rw [show Bark.barkCenterFrequencies.length = 24 from rfl]
      omega
    simp only [Bark.convertLinearFrequenciesToBark, Bark.barkSpecOutput,
      Bark.minValue, Bark.maxValue]
    rw [List.getD_eq_getElem?_getD, List.getElem?_map,
      List.getElem?_eq_getElem hi']
    rw [show Bark.barkCenterFrequencies.getD i 0
        = Bark.barkCenterFrequencies.get ⟨i, hi'⟩ from by
      rw [List.getD_eq_getElem?_getD, List.getElem?_eq_getElem hi']
      rfl]
    rfl

/-- C5 witness: three byte magnitudes at 48000 Hz. -/
theorem convertFrequencyScale_matches_bark_spec_witness :
    1 ≤ ([0, 128, 255] : List Nat).length ∧ (0 : ℚ) < 48000 ∧
    (∀ v ∈ ([0, 128, 255] : List Nat), v ≤ 255) ∧
    ((Bark.convertLinearFrequenciesToBark [0, 128, 255] 48000).length = 24 ∧
      ∀ i, i < 24 →
        (Bark.convertLinearFrequenciesToBark [0, 128, 255] 48000).getD i 0
          = Bark.barkSpecOutput [0, 128, 255] 48000 i) :=
  ⟨by decide, by norm_num, by decide,
    convertFrequencyScale_matches_bark_spec [0, 128, 255] 48000
      (by decide) (by norm_num) (by decide)⟩

/-- C6: starting a display frame with nothing pending, any nonempty
sequence of writes produces zero notifications by itself and exactly one
notification once the next display-frame flush runs; moreover, in any
clear-free event sequence the number of notifications never exceeds the
number of display frames. -/
theorem fftStore_writes_coalesce_to_one_notification
    (s : Fft.FftState) (ds : List (List ℚ))
    (hclean : s.dirty = false) (hpending : s.rafPending = false)
    (hne : ds ≠ []) :
    (Fft.fftRun s (ds.map Fft.FftEv.write)).2 = 0 ∧
    (Fft.fftRun s (ds.map Fft.FftEv.write ++ [Fft.FftEv.frame])).2 = 1 ∧
    ∀ (t : Fft.FftState) (evs : List Fft.FftEv),
      (∀ e ∈ evs, e ≠ Fft.FftEv.clear) →
      (Fft.fftRun t evs).2 ≤ evs.countP Fft.isFrame := by
  obtain ⟨hw0, hwd, hwp⟩ := Fft.fftRun_writes_from_clean s ds hclean hne
  refine ⟨hw0, ?_, fun t evs hc => Fft.fftRun_notifications_le_frames evs hc t⟩
  rw [Fft.fftRun_append, hw0]
  simp [Fft.fftRun, Fft.fftStep, Fft.fftFrame, Fft.fftFlush, hwd, hwp]

/-- C6 witness: three writes in one frame from a fresh store notify
exactly once on the frame flush. -/
theorem fftStore_writes_coalesce_to_one_notification_witness :
    Fft.initFftState.dirty = false ∧ Fft.initFftState.rafPending = false ∧
    ([[1], [2], [3]] : List (List ℚ)) ≠ [] ∧
    ((Fft.fftRun Fft.initFftState
        (([[1], [2], [3]] : List (List ℚ)).map Fft.FftEv.write)).2 = 0 ∧
      (Fft.fftRun Fft.initFftState
        (([[1], [2], [3]] : List (List ℚ)).map Fft.FftEv.write
          ++ [Fft.FftEv.frame])).2 = 1 ∧
      ∀ (t : Fft.FftState) (evs : List Fft.FftEv),
        (∀ e ∈ evs, e ≠ Fft.FftEv.clear) →
        (Fft.fftRun t evs).2 ≤ evs.countP Fft.isFrame) :=
  ⟨rfl, rfl, by simp,
    fftStore_writes_coalesce_to_one_notification Fft.initFftState
      [[1], [2], [3]] rfl rfl (by simp)⟩

/-- C7 counterexample: from an `error` status, `disconnect` leaves the
status `error` for both values of the `disconnectOnError` flag — there
is no override that moves an `error` status to `disconnected`. -/
theorem voiceProvider_disconnect_error_override_counterexample :
    (Coord.disconnectCoord
        ⟨Coord.VStatus.error "connection lost", Coord.ResStatus.connected,
          Coord.ResStatus.connected, Coord.ResStatus.connected, false,
          some ("socket_error", "socket_connection_failure"), false, false⟩
        true).status = Coord.VStatus.error "connection lost" ∧
    (Coord.disconnectCoord
        ⟨Coord.VStatus.error "connection lost", Coord.ResStatus.connected,
          Coord.ResStatus.connected, Coord.ResStatus.connected, false,
          some ("socket_error", "socket_connection_failure"), false, false⟩
        false).status = Coord.VStatus.error "connection lost" := by
  constructor
  · decide
  · decide

/-- C7 (amended): once the overall status is `error` it is sticky
unconditionally: a subsequent `disconnect` leaves the status `error` for
every value of the `disconnectOnError` flag; the flag only suppresses
the transition to `disconnected` when the status is not `error`. -/
theorem voiceProvider_error_status_sticky_on_disconnect
    (s : Coord.CoordState) (b : Bool) (r : String)
    (h : s.status = Coord.VStatus.error r) :
    (Coord.disconnectCoord s b).status = Coord.VStatus.error r ∧
    (Coord.disconnectCoord s false).status = Coord.VStatus.error r := by
  constructor <;>
  · cases hrc : s.readyStateClosed <;>
      simp [Coord.disconnectCoord, Coord.disconnectCleanup,
        Coord.statusIsError, h, hrc]

/-- C7 witness: a concrete error-status state stays `error` under
disconnect with the override flag set. -/
theorem voiceProvider_error_status_sticky_on_disconnect_witness :
    (⟨Coord.VStatus.error "boom", Coord.ResStatus.connected,
        Coord.ResStatus.connected, Coord.ResStatus.connected, false, none,
        false, true⟩ : Coord.CoordState).status = Coord.VStatus.error "boom" ∧
    ((Coord.disconnectCoord
        ⟨Coord.VStatus.error "boom", Coord.ResStatus.connected,
          Coord.ResStatus.connected, Coord.ResStatus.connected, false, none,
          false, true⟩ true).status = Coord.VStatus.error "boom" ∧
      (Coord.disconnectCoord
        ⟨Coord.VStatus.error "boom", Coord.ResStatus.connected,
          Coord.ResStatus.connected, Coord.ResStatus.connected, false, none,
          false, true⟩ false).status = Coord.VStatus.error "boom") :=
  ⟨rfl,
    voiceProvider_error_status_sticky_on_disconnect
      ⟨Coord.VStatus.error "boom", Coord.ResStatus.connected,
        Coord.ResStatus.connected, Coord.ResStatus.connected, false, none,
        false, true⟩ true "boom" rfl⟩

/-- C8: calling connect while a connect attempt is in flight, or while
the session status is `connected`, is a no-op that returns without
altering any coordinator state. -/
theorem voiceProvider_connect_noop_when_inflight_or_connected
    (s : Coord.CoordState) (o : Coord.ConnectOracle)
    (h : s.isConnecting = true ∨ s.status = Coord.VStatus.connected) :
    Coord.connectCoord s o = s := by
  rw [Coord.connectCoord]
  rcases h with h | h
  · rw [if_pos (by simp [h])]
  · rw [if_pos (by simp [h])]

/-- C8 witness: connect on an already-connected session returns the
state unchanged. -/
theorem voiceProvider_connect_noop_witness :
    ((⟨Coord.VStatus.connected, Coord.ResStatus.connected,
        Coord.ResStatus.connected, Coord.ResStatus.connected, false, none,
        false, false⟩ : Coord.CoordState).isConnecting = true ∨
      (⟨Coord.VStatus.connected, Coord.ResStatus.connected,
        Coord.ResStatus.connected, Coord.ResStatus.connected, false, none,
        false, false⟩ : Coord.CoordState).status = Coord.VStatus.connected) ∧
    Coord.connectCoord
      ⟨Coord.VStatus.connected, Coord.ResStatus.connected,
        Coord.ResStatus.connected, Coord.ResStatus.connected, false, none,
        false, false⟩
      ⟨true, false, false, true, true, true, true, true⟩
      = ⟨Coord.VStatus.connected, Coord.ResStatus.connected,
          Coord.ResStatus.connected, Coord.ResStatus.connected, false, none,
          false, false⟩ :=
  ⟨Or.inr rfl,
    voiceProvider_connect_noop_when_inflight_or_connected _ _ (Or.inr rfl)⟩

/-- C9: when the internal close operation fails on every attempt,
`stopAllWithRetries` invokes it exactly `maxAttempts` times, sleeps the
fixed delay between consecutive attempts (`maxAttempts - 1` sleeps),
reports exactly one closure-failure error, and still returns. -/
theorem stopAllWithRetries_persistent_failure
    (ok : Nat → Bool) (maxAttempts : Nat)
    (hfail : ∀ a, ok a = false) (hmax : 1 ≤ maxAttempts) :
    Player.stopAllWithRetries ok maxAttempts
      = ⟨maxAttempts, maxAttempts - 1, 1⟩ := by
  rw [Player.stopAllWithRetries]
  exact Player.retryGo_all_fail ok hfail maxAttempts 1 hmax

/-- C9 witness: with the default three attempts all failing, stopAll is
called three times, with two sleeps and one reported error. -/
theorem stopAllWithRetries_persistent_failure_witness :
    (∀ a : Nat, (fun _ => false) a = false) ∧ 1 ≤ 3 ∧
    Player.stopAllWithRetries (fun _ => false) 3 = ⟨3, 2, 1⟩ :=
  ⟨fun _ => rfl, by decide,
    stopAllWithRetries_persistent_failure (fun _ => false) 3 (fun _ => rfl)
      (by decide)⟩

/-- C10: `stopAll` resets the stored volume to 1.0 and the muted flag to
false, for every prior state and in both playback modes — while
`muteAudio` and `unmuteAudio` leave the stored volume unchanged and
`setVolume` stores the clamped level. -/
theorem stopAll_resets_volume_and_mute
    (w : Bool) (s : Player.PlayerState) (l : ℚ) :
    (Player.stopAllState w s).volume = 1 ∧
    (Player.stopAllState w s).isAudioMuted = false ∧
    (Player.muteAudio s).volume = s.volume ∧
    (Player.unmuteAudio s).volume = s.volume ∧
    (Player.setVolume s l).volume = max 0 (min l 1) := by
  refine ⟨by cases w <;> rfl, by cases w <;> rfl, ?_, ?_, ?_⟩
  · rw [Player.muteAudio]
    split <;> rfl
  · rw [Player.unmuteAudio]
    split <;> rfl
  · simp only [Player.setVolume]
    split <;> rfl
